import Mathlib

/-!
# Verification of the wayland-tutorials rectangle client (`src/main.rs`)

Shallow embedding of the program's core: the per-pixel rasterizer (`draw`,
`is_coords_in_rect`), the input handlers (pointer motion and keyboard key),
the frame-pacing event loop in `main`, the error handling of the
render/commit path, and the reader/writer-locked shared scene state.

Machine integers: Rust `u32` values are modelled as `Nat` together with
explicit reduction `% 2 ^ 32` wherever the source's arithmetic can overflow.
Arithmetic is modelled with the wrap-around (two's-complement) semantics of
a release build, which is also the behaviour the repository's documentation
describes for coordinate underflow.
-/

namespace WaylandRect

/-- Buffer (and window) width, `BUF_X` in the source. -/
def BUF_X : Nat := 640

/-- Buffer (and window) height, `BUF_Y` in the source. -/
def BUF_Y : Nat := 480

/-- Modulus of Rust's `u32` arithmetic. -/
def U32MOD : Nat := 2 ^ 32

/-- The white rectangle which moves based on user input (`struct Rect`).
Fields are `u32` in the source, modelled as `Nat` with values `< 2 ^ 32`. -/
structure Rect where
  x : Nat
  y : Nat
  w : Nat
  h : Nat
deriving DecidableEq, Repr

/-- The rectangle installed by `AppState::new`: `x: 0, y: 0, w: 50, h: 50`. -/
def startupRect : Rect := ⟨0, 0, 50, 50⟩

/-! ## Rasterizer (`draw`, main.rs lines 138–190) -/

/-- `is_coords_in_rect` (main.rs 156–158):
`i > rect.x && i < rect.x + rect.w && j > rect.y && j < rect.y + rect.h`.
The additions are `u32` additions, hence the explicit `% 2 ^ 32`. -/
def is_coords_in_rect (rect : Rect) (i j : Nat) : Bool :=
  decide (i > rect.x) && decide (i < (rect.x + rect.w) % U32MOD) &&
    decide (j > rect.y) && decide (j < (rect.y + rect.h) % U32MOD)

/-- Body of the pixel loop in `draw` (main.rs 167–187) for loop index `i`:
`x = i % BUF_X`, `y = i / BUF_Y` (the source divides by `BUF_Y`), colour
channels `r = g = b = bg_color = 0`, set to `255` when
`is_coords_in_rect` holds, and the four bytes pushed in the order
`0xFF, r, g, b`. -/
def pixelBytes (rect : Rect) (i : Nat) : List Nat :=
  let x := i % BUF_X
  let y := i / BUF_Y
  if is_coords_in_rect rect x y then [0xFF, 255, 255, 255] else [0xFF, 0, 0, 0]

/-- The full byte vector `pixels` built by `draw` and then written at offset 0
of the shared buffer (after `tmp.seek(SeekFrom::Start(0))`). -/
def drawBytes (rect : Rect) : List Nat :=
  (List.range (BUF_X * BUF_Y)).flatMap (pixelBytes rect)

/-- The four bytes of buffer pixel `i`: bytes `4*i .. 4*i+3` of the vector
written at offset 0. -/
def bufPixel (rect : Rect) (i : Nat) : List Nat :=
  ((drawBytes rect).drop (4 * i)).take 4

/-- Little-endian 32-bit reading of four bytes, the native interpretation on
the program's little-endian targets (and the byte order the declared
`wl_shm` format `Argb8888` mandates). -/
def le32 : List Nat → Nat
  | [b0, b1, b2, b3] => b0 + 256 * b1 + 65536 * b2 + 16777216 * b3
  | _ => 0

/-- Alpha channel of a 32-bit ARGB value: bits 24–31. -/
def argbAlpha (v : Nat) : Nat := v / 2 ^ 24 % 2 ^ 8

/-! ## Input handlers (main.rs 210–279) -/

/-- Wrapping `u32` addition (release-build `+`). -/
def wadd (a b : Nat) : Nat := (a + b) % U32MOD

/-- Wrapping `u32` subtraction (release-build `-`): for `a, b < 2 ^ 32` this
is two's-complement subtraction. -/
def wsub (a b : Nat) : Nat := (a + (U32MOD - b % U32MOD)) % U32MOD

/-- The `motion` arm of the pointer handler (main.rs 218–225): sets the
rectangle's top-left corner to the pointer position, leaving `w`, `h`
untouched. `px`, `py` are the `u32` values obtained from the source's
`x as u32`, `y as u32` casts. -/
def pointerMotion (px py : Nat) (r : Rect) : Rect :=
  { r with x := px, y := py }

/-- `wl_keyboard::KeyState`. -/
inductive KeyState where
  | pressed
  | released
deriving DecidableEq, Repr

/-- The `key` arm of the keyboard handler (main.rs 252–275): on a release of
key code 103/108/105/106 the rectangle's `y`/`y`/`x`/`x` is moved by 5 with
`u32` arithmetic; every other `(state, key)` pair leaves the state unchanged. -/
def keyboardKey (state : KeyState) (key : Nat) (r : Rect) : Rect :=
  match state with
  | .pressed => r
  | .released =>
    if key = 103 then { r with y := wsub r.y 5 }
    else if key = 108 then { r with y := wadd r.y 5 }
    else if key = 105 then { r with x := wsub r.x 5 }
    else if key = 106 then { r with x := wadd r.x 5 }
    else r

/-! ## Frame-pacing event loop (`main`, main.rs 119–134, and the frame
callback handler, main.rs 202–208)

`main` performs one startup `draw`, then loops: attach + damage + commit,
flush, request a fresh frame callback, and block in `dispatch()` until at
least one event is pending, dispatching all of them.  The frame callback's
`done` handler calls `draw` exactly once per firing.  A dispatched batch is
a list of events: frame-callback firings and other (input) events. -/

/-- An event delivered by `event_queue.dispatch()`: a frame-callback `done`
notification, or any other (pointer/keyboard) event. -/
inductive Ev where
  | frameDone
  | input
deriving DecidableEq, Repr

/-- Observation counters for one run of `main`'s loop.
`renders` counts `draw` invocations, `commits` counts executions of the
attach/damage/commit sequence, `firings` counts frame-callback firings,
`outstanding` counts frame callbacks requested but not yet fired,
`maxOut` is the running maximum of `outstanding`,
`rendersSinceCommit` counts `draw` calls since the last commit, and
`commitsWithoutRender` counts commits not preceded by a render in their
cycle. -/
structure LoopState where
  renders : Nat
  commits : Nat
  firings : Nat
  outstanding : Nat
  maxOut : Nat
  rendersSinceCommit : Nat
  commitsWithoutRender : Nat
deriving DecidableEq, Repr

/-- Dispatching one event: a frame-callback firing runs the `done` handler,
which calls `draw` once (main.rs 204–206); any other event leaves the
counters unchanged (input handlers never render or commit). -/
def handleEvent (s : LoopState) (e : Ev) : LoopState :=
  match e with
  | .frameDone =>
      { s with
        firings := s.firings + 1
        renders := s.renders + 1
        outstanding := s.outstanding - 1
        rendersSinceCommit := s.rendersSinceCommit + 1 }
  | .input => s

/-- One iteration of `main`'s loop (main.rs 122–134): commit the buffer,
request a new frame callback, then dispatch the pending batch. -/
def loopIter (s : LoopState) (batch : List Ev) : LoopState :=
  let s1 : LoopState :=
    { s with
      commits := s.commits + 1
      commitsWithoutRender :=
        s.commitsWithoutRender + (if s.rendersSinceCommit = 0 then 1 else 0)
      rendersSinceCommit := 0
      outstanding := s.outstanding + 1
      maxOut := max s.maxOut (s.outstanding + 1) }
  batch.foldl handleEvent s1

/-- State after the startup `draw(&app_state)` (main.rs 119): one render,
no commit, no callback requested yet. -/
def initLoop : LoopState :=
  { renders := 1, commits := 0, firings := 0, outstanding := 0, maxOut := 0
    rendersSinceCommit := 1, commitsWithoutRender := 0 }

/-- Run `main`'s loop over a sequence of dispatched batches. -/
def runLoop (batches : List (List Ev)) : LoopState :=
  batches.foldl loopIter initLoop

/-- Number of frame-callback firings in one batch. -/
def countFD : List Ev → Nat
  | [] => 0
  | .frameDone :: es => countFD es + 1
  | .input :: es => countFD es

/-- A batch sequence the compositor can actually deliver, starting with
`out` outstanding callbacks: `dispatch()` only returns on a nonempty batch,
and a frame callback fires at most once, so a batch cannot contain more
firings than callbacks outstanding after the iteration's own request. -/
def validBatches : Nat → List (List Ev) → Bool
  | _, [] => true
  | out, b :: bs =>
      decide (b ≠ []) && decide (countFD b ≤ out + 1) &&
        validBatches (out + 1 - countFD b) bs

/-! ## Error handling on the render/commit path (`draw` main.rs 152–189 and
the loop body main.rs 124–133)

Each fallible operation on the path is modelled by a flag saying whether it
fails.  The source handles each result as follows: `seek` — `.unwrap()`;
`write_all` — result discarded (no `unwrap`, main.rs 188); `flush` —
`.unwrap()`; `attach`/`commit` — infallible in this API; `damage_buffer` —
`.expect(..)`; `display.flush()` — `.expect(..)`; `surface.frame()` —
`.expect(..)`; `dispatch()` — `.expect(..)`.  A cycle terminates the
process (modelled as `Except.error` carrying the diagnostic) exactly when
an operation whose result is unwrapped fails. -/

structure IoFailures where
  seekFails : Bool
  writeAllFails : Bool
  flushFails : Bool
  damageFails : Bool
  displayFlushFails : Bool
  frameFails : Bool
  dispatchFails : Bool
deriving DecidableEq, Repr

/-- One render + commit cycle: the `draw` body followed by the loop body,
with the source's exact result handling.  `Except.error msg` models process
termination with diagnostic `msg`; `Except.ok ()` models the cycle running
to completion. -/
def renderCommitCycle (f : IoFailures) : Except String Unit := do
  if f.seekFails then throw "seek unwrap"
  if f.flushFails then throw "flush unwrap"
  if f.damageFails then throw "Failed to damage buffer"
  if f.displayFlushFails then throw "Error flushing display"
  if f.frameFails then throw "unable to request frame hint"
  if f.dispatchFails then throw "Event queue dispatch failed"
  pure ()

/-- `true` iff the cycle runs to completion (the process is not terminated). -/
def cycleCompletes (f : IoFailures) : Bool :=
  match renderCommitCycle f with
  | .ok _ => true
  | .error _ => false

/-! ## SharedScene concurrency model (`ArcRwlAppState`, main.rs 44–45;
writer: the pointer `motion` handler, main.rs 222–224; reader: the snapshot
taken by `draw`, main.rs 142–150)

The `Arc<RwLock<AppState>>` is modelled by an explicit lock state and an
interleaving small-step relation.  The writer thread performs each scene
update as the source's two sequential field stores (`rect.x = ...;`
`rect.y = ...;`) inside one write-lock critical section; the reader thread
reads `rect.x` and then `rect.y` inside one read-lock critical section.
The `RwLock` contract — a writer acquires only when the lock is free, a
reader is blocked out while a writer holds the lock — is exactly what the
step relation's side conditions encode. -/

/-- State of the reader/writer lock (one reader thread suffices here, so a
plain three-state lock). -/
inductive Lock where
  | free
  | rlocked
  | wlocked
deriving DecidableEq, Repr

/-- Program counter of the writer thread, carrying the list of pending
complete writes it still intends to perform. -/
inductive WPhase where
  | idle (pending : List Rect)
  | acquired (target : Rect) (pending : List Rect)
  | wroteX (target : Rect) (pending : List Rect)
  | wroteXY (pending : List Rect)
deriving DecidableEq, Repr

/-- Program counter of the reader thread, carrying the number of snapshots
it still intends to take, and mid-read the `x` value already read. -/
inductive RPhase where
  | idle (n : Nat)
  | acquired (n : Nat)
  | gotX (sx : Nat) (n : Nat)
  | gotXY (n : Nat)
deriving DecidableEq, Repr

/-- A configuration of the two threads around the shared `AppState`. -/
structure SceneConfig where
  lock : Lock
  rect : Rect
  writer : WPhase
  reader : RPhase
  reads : List (Nat × Nat)
deriving DecidableEq, Repr

/-- One atomic step of either thread, under the `RwLock` discipline. -/
inductive SceneStep : SceneConfig → SceneConfig → Prop where
  | wAcquire (rc t p rd rs) :
      SceneStep ⟨.free, rc, .idle (t :: p), rd, rs⟩
        ⟨.wlocked, rc, .acquired t p, rd, rs⟩
  | wSetX (rc t p rd rs) :
      SceneStep ⟨.wlocked, rc, .acquired t p, rd, rs⟩
        ⟨.wlocked, ⟨t.x, rc.y, rc.w, rc.h⟩, .wroteX t p, rd, rs⟩
  | wSetY (rc t p rd rs) :
      SceneStep ⟨.wlocked, rc, .wroteX t p, rd, rs⟩
        ⟨.wlocked, ⟨rc.x, t.y, rc.w, rc.h⟩, .wroteXY p, rd, rs⟩
  | wRelease (rc p rd rs) :
      SceneStep ⟨.wlocked, rc, .wroteXY p, rd, rs⟩
        ⟨.free, rc, .idle p, rd, rs⟩
  | rAcquire (rc wr n rs) :
      SceneStep ⟨.free, rc, wr, .idle (n + 1), rs⟩
        ⟨.rlocked, rc, wr, .acquired n, rs⟩
  | rGetX (rc wr n rs) :
      SceneStep ⟨.rlocked, rc, wr, .acquired n, rs⟩
        ⟨.rlocked, rc, wr, .gotX rc.x n, rs⟩
  | rGetY (rc wr sx n rs) :
      SceneStep ⟨.rlocked, rc, wr, .gotX sx n, rs⟩
        ⟨.rlocked, rc, wr, .gotXY n, (sx, rc.y) :: rs⟩
  | rRelease (rc wr n rs) :
      SceneStep ⟨.rlocked, rc, wr, .gotXY n, rs⟩
        ⟨.free, rc, wr, .idle n, rs⟩

/-- Initial configuration: lock free, scene holding `r0`, writer intending
the complete writes `ws`, reader intending `n` snapshots, nothing read. -/
def initScene (r0 : Rect) (ws : List Rect) (n : Nat) : SceneConfig :=
  ⟨.free, r0, .idle ws, .idle n, []⟩

/-- An `(x, y)` pair is untorn: it is the initial position or the position
installed by one complete write. -/
def goodPair (r0 : Rect) (ws : List Rect) (p : Nat × Nat) : Prop :=
  p = (r0.x, r0.y) ∨ ∃ t ∈ ws, p = (t.x, t.y)

/-- The writer thread is inside its critical section. -/
def writerMid : WPhase → Prop
  | .idle _ => False
  | _ => True

/-- The reader thread is inside its critical section. -/
def readerMid : RPhase → Prop
  | .idle _ => False
  | _ => True

/-- Pending writes and the current target all come from the intended list. -/
def writerFrom (ws : List Rect) : WPhase → Prop
  | .idle p => p ⊆ ws
  | .acquired t p => t ∈ ws ∧ p ⊆ ws
  | .wroteX t p => t ∈ ws ∧ p ⊆ ws
  | .wroteXY p => p ⊆ ws

/-- The scene is allowed to be torn only between the writer's two field
stores; there the `x` field already holds the target's value. -/
def rectCoherent (r0 : Rect) (ws : List Rect) (rc : Rect) : WPhase → Prop
  | .wroteX t _ => rc.x = t.x
  | _ => goodPair r0 ws (rc.x, rc.y)

/-- Mid-read, the saved `x` is the scene's current `x`. -/
def readerCoherent (rc : Rect) : RPhase → Prop
  | .gotX sx _ => sx = rc.x
  | _ => True

/-- The inductive invariant of the interleaved system. -/
def SceneInv (r0 : Rect) (ws : List Rect) (c : SceneConfig) : Prop :=
  (writerMid c.writer ↔ c.lock = .wlocked) ∧
  (readerMid c.reader ↔ c.lock = .rlocked) ∧
  writerFrom ws c.writer ∧
  rectCoherent r0 ws c.rect c.writer ∧
  readerCoherent c.rect c.reader ∧
  ∀ p ∈ c.reads, goodPair r0 ws p

/-! ## Structural lemmas about the pixel vector -/

lemma is_coords_in_rect_iff (rect : Rect) (i j : Nat) :
    is_coords_in_rect rect i j = true ↔
      rect.x < i ∧ i < (rect.x + rect.w) % U32MOD ∧
        rect.y < j ∧ j < (rect.y + rect.h) % U32MOD := by
  simp [is_coords_in_rect, and_assoc]

lemma pixelBytes_length (rect : Rect) (i : Nat) : (pixelBytes rect i).length = 4 := by
  simp only [pixelBytes]
  split <;> rfl

lemma flatMap_pixel_chunk (rect : Rect) :
    ∀ (n s j : Nat), j < n →
      (((List.range' s n).flatMap (pixelBytes rect)).drop (4 * j)).take 4 =
        pixelBytes rect (s + j) := by
  intro n
  induction n with
  | zero => intro s j hj; omega
  | succ m ih =>
    intro s j hj
    rw [List.range'_succ, List.flatMap_cons]
    match j with
    | 0 =>
      rw [Nat.mul_zero, List.drop_zero, Nat.add_zero,
        ← pixelBytes_length rect s, List.take_left]
      rfl
    | j + 1 =>
      have h4 : 4 * (j + 1) = (pixelBytes rect s).length + 4 * j := by
        rw [pixelBytes_length]; omega
      rw [h4, List.drop_append, ih (s + 1) j (by omega)]
      congr 1
      omega

/-- Buffer pixel `i` of a render pass is exactly the four bytes pushed at
iteration `i` of the pixel loop. -/
lemma bufPixel_eq (rect : Rect) (i : Nat) (hi : i < BUF_X * BUF_Y) :
    bufPixel rect i = pixelBytes rect i := by
  have h := flatMap_pixel_chunk rect (BUF_X * BUF_Y) 0 i hi
  rw [Nat.zero_add] at h
  rw [bufPixel, drawBytes, List.range_eq_range', h]

/-- A render pass writes exactly `BUF_X * BUF_Y * 4` bytes. -/
lemma drawBytes_length (rect : Rect) : (drawBytes rect).length = BUF_X * BUF_Y * 4 := by
  rw [drawBytes, List.length_flatMap]
  have hmap : (List.range (BUF_X * BUF_Y)).map (List.length ∘ pixelBytes rect) =
      List.replicate (BUF_X * BUF_Y) 4 := by
    rw [List.eq_replicate_iff]
    constructor
    · simp
    · intro b hb
      obtain ⟨i, _, hib⟩ := List.mem_map.mp hb
      rw [← hib]
      exact pixelBytes_length rect i
  rw [hmap, List.sum_replicate, smul_eq_mul, Nat.mul_comm]

/-! ## Lemmas about the event loop counters -/

lemma foldl_handleEvent (b : List Ev) :
    ∀ s : LoopState,
      (b.foldl handleEvent s).renders = s.renders + countFD b ∧
      (b.foldl handleEvent s).firings = s.firings + countFD b ∧
      (b.foldl handleEvent s).commits = s.commits ∧
      (b.foldl handleEvent s).maxOut = s.maxOut ∧
      (b.foldl handleEvent s).commitsWithoutRender = s.commitsWithoutRender ∧
      (b.foldl handleEvent s).rendersSinceCommit = s.rendersSinceCommit + countFD b ∧
      (countFD b ≤ s.outstanding →
        (b.foldl handleEvent s).outstanding = s.outstanding - countFD b) := by
  induction b with
  | nil => intro s; simp [countFD]
  | cons e es ih =>
    intro s
    cases e with
    | frameDone =>
      obtain ⟨h1, h2, h3, h4, h5, h6, h7⟩ := ih (handleEvent s .frameDone)
      simp only [List.foldl_cons, countFD, handleEvent] at *
      refine ⟨by omega, by omega, h3, h4, h5, by omega, ?_⟩
      intro hle
      rw [h7 (by omega)]
      omega
    | input =>
      obtain ⟨h1, h2, h3, h4, h5, h6, h7⟩ := ih s
      simp only [List.foldl_cons, countFD, handleEvent]
      exact ⟨h1, h2, h3, h4, h5, h6, h7⟩

lemma foldl_loopIter (batches : List (List Ev)) :
    ∀ s : LoopState,
      (batches.foldl loopIter s).renders + s.firings =
        (batches.foldl loopIter s).firings + s.renders ∧
      (batches.foldl loopIter s).commits = s.commits + batches.length ∧
      ((∀ b ∈ batches, countFD b = 1) → s.outstanding = 0 → s.maxOut ≤ 1 →
        s.commitsWithoutRender = 0 → 1 ≤ s.rendersSinceCommit →
        s.commits = s.firings →
        (batches.foldl loopIter s).outstanding = 0 ∧
        (batches.foldl loopIter s).maxOut ≤ 1 ∧
        (batches.foldl loopIter s).commitsWithoutRender = 0 ∧
        1 ≤ (batches.foldl loopIter s).rendersSinceCommit ∧
        (batches.foldl loopIter s).commits = (batches.foldl loopIter s).firings) := by
  induction batches with
  | nil =>
    intro s
    simp only [List.foldl_nil, List.length_nil]
    refine ⟨by omega, by omega, ?_⟩
    intro _ h1 h2 h3 h4 h5
    exact ⟨h1, h2, h3, h4, h5⟩
  | cons b bs ih =>
    intro s
    obtain ⟨ih1, ih2, ih3⟩ := ih (loopIter s b)
    obtain ⟨g1, g2, g3, g4, g5, g6, g7⟩ := foldl_handleEvent b
      { s with
        commits := s.commits + 1
        commitsWithoutRender :=
          s.commitsWithoutRender + (if s.rendersSinceCommit = 0 then 1 else 0)
        rendersSinceCommit := 0
        outstanding := s.outstanding + 1
        maxOut := max s.maxOut (s.outstanding + 1) }
    have ht1 : (loopIter s b).renders = s.renders + countFD b := g1
    have ht2 : (loopIter s b).firings = s.firings + countFD b := g2
    have ht3 : (loopIter s b).commits = s.commits + 1 := g3
    have ht4 : (loopIter s b).maxOut = max s.maxOut (s.outstanding + 1) := g4
    have ht5 : (loopIter s b).commitsWithoutRender =
        s.commitsWithoutRender + (if s.rendersSinceCommit = 0 then 1 else 0) := g5
    have ht6 : (loopIter s b).rendersSinceCommit = 0 + countFD b := g6
    have ht7 : countFD b ≤ s.outstanding + 1 →
        (loopIter s b).outstanding = s.outstanding + 1 - countFD b := g7
    simp only [List.foldl_cons, List.length_cons]
    refine ⟨by omega, by omega, ?_⟩
    intro hall hout hmax hcwr hrsc hcf
    have hb1 : countFD b = 1 := hall b (List.mem_cons_self b bs)
    have hall2 : ∀ b2 ∈ bs, countFD b2 = 1 := fun b2 hb2 =>
      hall b2 (List.mem_cons_of_mem b hb2)
    have hrsc0 : (if s.rendersSinceCommit = 0 then 1 else 0) = 0 := by
      rw [if_neg]; omega
    rw [hrsc0] at ht5
    exact ih3 hall2 (by omega) (by omega) (by omega) (by omega) (by omega)

lemma sceneInv_init (r0 : Rect) (ws : List Rect) (n : Nat) :
    SceneInv r0 ws (initScene r0 ws n) := by
  refine ⟨by simp [initScene, writerMid], by simp [initScene, readerMid],
    by simp [initScene, writerFrom], ?_, by simp [initScene, readerCoherent],
    by simp [initScene]⟩
  simp [initScene, rectCoherent, goodPair]

lemma sceneInv_step {r0 : Rect} {ws : List Rect} {c c2 : SceneConfig}
    (hinv : SceneInv r0 ws c) (hstep : SceneStep c c2) : SceneInv r0 ws c2 := by
  obtain ⟨hw, hr, hfrom, hrect, hread, hreads⟩ := hinv
  cases hstep with
  | wAcquire rc t p rd rs =>
    have hrmid : ¬ readerMid rd := by
      intro hmid
      exact absurd (hr.mp hmid) (by simp)
    refine ⟨by simp [writerMid], ?_, ?_, ?_, ?_, hreads⟩
    · simp only [Lock.rlocked]
      exact ⟨fun hmid => absurd hmid hrmid, by simp⟩
    · exact ⟨hfrom (List.mem_cons_self t p), fun a ha => hfrom (List.mem_cons_of_mem t ha)⟩
    · exact hrect
    · cases rd with
      | gotX sx m => exact absurd (by trivial) hrmid
      | idle m => trivial
      | acquired m => trivial
      | gotXY m => trivial
  | wSetX rc t p rd rs =>
    have hrmid : ¬ readerMid rd := by
      intro hmid
      exact absurd (hr.mp hmid) (by simp)
    refine ⟨by simp [writerMid], ?_, hfrom, by simp [rectCoherent], ?_⟩
    · exact ⟨fun hmid => absurd hmid hrmid, by simp⟩
    · refine ⟨?_, hreads⟩
      cases rd with
      | gotX sx m => exact absurd (by trivial) hrmid
      | idle m => trivial
      | acquired m => trivial
      | gotXY m => trivial
  | wSetY rc t p rd rs =>
    have hrmid : ¬ readerMid rd := by
      intro hmid
      exact absurd (hr.mp hmid) (by simp)
    refine ⟨by simp [writerMid], ?_, hfrom.2, ?_, ?_, hreads⟩
    · exact ⟨fun hmid => absurd hmid hrmid, by simp⟩
    · have hx : rc.x = t.x := hrect
      simp only [rectCoherent, goodPair]
      exact Or.inr ⟨t, hfrom.1, by simp [hx]⟩
    · cases rd with
      | gotX sx m => exact absurd (by trivial) hrmid
      | idle m => trivial
      | acquired m => trivial
      | gotXY m => trivial
  | wRelease rc p rd rs =>
    have hrmid : ¬ readerMid rd := by
      intro hmid
      exact absurd (hr.mp hmid) (by simp)
    refine ⟨by simp [writerMid], ?_, hfrom, hrect, ?_, hreads⟩
    · exact ⟨fun hmid => absurd hmid hrmid, by simp⟩
    · cases rd with
      | gotX sx m => exact absurd (by trivial) hrmid
      | idle m => trivial
      | acquired m => trivial
      | gotXY m => trivial
  | rAcquire rc wr n rs =>
    have hwmid : ¬ writerMid wr := by
      intro hmid
      exact absurd (hw.mp hmid) (by simp)
    refine ⟨?_, by simp [readerMid], hfrom, ?_, by simp [readerCoherent], hreads⟩
    · exact ⟨fun hmid => absurd hmid hwmid, by simp⟩
    · cases wr with
      | wroteX t p => exact absurd (by trivial) hwmid
      | idle p => exact hrect
      | acquired t p => exact hrect
      | wroteXY p => exact hrect
  | rGetX rc wr n rs =>
    exact ⟨hw, by simp [readerMid], hfrom, hrect, by simp [readerCoherent], hreads⟩
  | rGetY rc wr sx n rs =>
    have hwmid : ¬ writerMid wr := by
      intro hmid
      have := hw.mp hmid
      simp at this
    refine ⟨hw, by simp [readerMid], hfrom, hrect, by simp [readerCoherent], ?_⟩
    intro p hp
    rcases List.mem_cons.mp hp with hp1 | hp2
    · have hsx : sx = rc.x := hread
      have hgood : goodPair r0 ws (rc.x, rc.y) := by
        cases wr with
        | wroteX t p => exact absurd (by trivial) hwmid
        | idle p => exact hrect
        | acquired t p => exact hrect
        | wroteXY p => exact hrect
      rw [hp1, hsx]
      exact hgood
    · exact hreads p hp2
  | rRelease rc wr n rs =>
    have hwmid : ¬ writerMid wr := by
      intro hmid
      have := hw.mp hmid
      simp at this
    refine ⟨?_, by simp [readerMid], hfrom, hrect, by trivial, hreads⟩
    exact ⟨fun hmid => absurd hmid hwmid, by simp⟩

/-- Every configuration reachable from the initial one satisfies the
invariant. -/
lemma sceneInv_reachable {r0 : Rect} {ws : List Rect} {n : Nat} {c : SceneConfig}
    (h : Relation.ReflTransGen SceneStep (initScene r0 ws n) c) :
    SceneInv r0 ws c := by
  induction h with
  | refl => exact sceneInv_init r0 ws n
  | tail hsteps hstep ih => exact sceneInv_step ih hstep

/-! ## Claim theorems -/

/-- C1: refuted by the code.  The claim says the pixel stored at row-major
index `y*width + x` is white iff `(x, y)` passes the strict interior test.
At the startup rectangle `{x:0, y:0, w:50, h:50}` the pixel `(x, y) = (5, 48)`
(row-major index `48*640 + 5 = 30725`) passes the interior test, yet the
render pass writes it black: the loop decodes the row as `i / BUF_Y`
(division by the buffer height 480, giving 64 here) instead of `i / BUF_X`,
contradicting the row-major stride-640 layout the buffer was created with. -/
theorem membership_rowmajor_bug_eval :
    is_coords_in_rect startupRect 5 48 = true ∧
    (48 * BUF_X + 5) % BUF_X = 5 ∧
    (48 * BUF_X + 5) / BUF_X = 48 ∧
    (48 * BUF_X + 5) / BUF_Y = 64 ∧
    bufPixel startupRect (48 * BUF_X + 5) = [0xFF, 0, 0, 0] := by
  refine ⟨by decide, by decide, by decide, by decide, ?_⟩
  rw [bufPixel_eq startupRect (48 * BUF_X + 5) (by decide)]
  decide

/-- C3: refuted by the code.  The claim says pixels whose row-major
coordinates lie on the rectangle's border (`y = rect.y` here) are never
white.  With `rect = {x:0, y:100, w:50, h:50}`, buffer index 64005 has
row-major coordinates `(5, 100)` — on the border row `y = rect.y` — yet
the render pass writes it white, because the loop tests `i / BUF_Y = 133`
(which is strictly inside) instead of the row-major row `i / BUF_X = 100`. -/
theorem border_exclusivity_bug_eval :
    (64005 : Nat) % BUF_X = 5 ∧
    (64005 : Nat) / BUF_X = 100 ∧
    (Rect.mk 0 100 50 50).y = 100 ∧
    (64005 : Nat) / BUF_Y = 133 ∧
    bufPixel ⟨0, 100, 50, 50⟩ 64005 = [0xFF, 255, 255, 255] := by
  refine ⟨by decide, by decide, rfl, by decide, ?_⟩
  rw [bufPixel_eq ⟨0, 100, 50, 50⟩ 64005 (by decide)]
  decide

/-- C4: partly refuted by the code.  A render pass does write exactly
`width * height` four-byte pixels starting at offset 0, but the bytes of
each pixel are pushed alpha-first (`0xFF, r, g, b`), so interpreted in the
little-endian byte order of the program's targets (the order the declared
`Argb8888` format fixes) a black pixel is the 32-bit value `0x000000FF`:
its ARGB alpha channel is `0x00`, and the value is neither `0xFFFFFFFF`
nor `0xFF000000`.  The commented-out
`write_u32::<NativeEndian>((0xFF << 24) + ...)` shows the intended layout. -/
theorem buffer_format_bug_eval :
    (drawBytes startupRect).length = BUF_X * BUF_Y * 4 ∧
    bufPixel startupRect 0 = [0xFF, 0, 0, 0] ∧
    le32 (bufPixel startupRect 0) = 0xFF ∧
    argbAlpha (le32 (bufPixel startupRect 0)) = 0 ∧
    le32 (bufPixel startupRect 0) ≠ 0xFF000000 ∧
    le32 (bufPixel startupRect 0) ≠ 0xFFFFFFFF := by
  have hb : bufPixel startupRect 0 = [0xFF, 0, 0, 0] := by
    rw [bufPixel_eq startupRect 0 (by decide)]
    decide
  refine ⟨drawBytes_length startupRect, hb, ?_, ?_, ?_, ?_⟩ <;> rw [hb] <;> decide

/-- C2, counterexample: the claim's strict alternation fails on a
compositor-deliverable trace.  If the first `dispatch()` returns on an
input-only batch, the loop commits a second time with no render in that
cycle and requests a second frame callback, so after one firing there have
been two commits, two callbacks were outstanding at once, and one commit
had no preceding render in its cycle. -/
theorem frame_pacing_counterexample :
    validBatches 0 [[Ev.input], [Ev.frameDone]] = true ∧
    (runLoop [[Ev.input], [Ev.frameDone]]).firings = 1 ∧
    (runLoop [[Ev.input], [Ev.frameDone]]).commits = 2 ∧
    (runLoop [[Ev.input], [Ev.frameDone]]).maxOut = 2 ∧
    (runLoop [[Ev.input], [Ev.frameDone]]).commitsWithoutRender = 1 := by
  decide

/-- C2, amended: each frame-callback firing invokes the rasterizer exactly
once (so `renders = 1 + firings`, counting the startup render), but the
attach/damage/commit sequence runs once per event-loop iteration
(`commits = batches.length`), which exceeds the number of firings when a
dispatch returns on input-only events.  Strict alternation — commits equal
firings, at most one callback outstanding, never a commit without a render
in its cycle — holds exactly when every dispatched batch contains exactly
one frame notification. -/
theorem frame_pacing_amended (batches : List (List Ev)) :
    (runLoop batches).renders = 1 + (runLoop batches).firings ∧
    (runLoop batches).commits = batches.length ∧
    ((∀ b ∈ batches, countFD b = 1) →
      (runLoop batches).commits = (runLoop batches).firings ∧
      (runLoop batches).maxOut ≤ 1 ∧
      (runLoop batches).commitsWithoutRender = 0) := by
  simp only [runLoop]
  obtain ⟨h1, h2, h3⟩ := foldl_loopIter batches initLoop
  have e1 : initLoop.renders = 1 := rfl
  have e2 : initLoop.firings = 0 := rfl
  have e3 : initLoop.commits = 0 := rfl
  refine ⟨by omega, by omega, ?_⟩
  intro hall
  obtain ⟨k1, k2, k3, k4, k5⟩ := h3 hall rfl (by decide) rfl (by decide) rfl
  exact ⟨k5, k2, k3⟩

/-- Witness for C2's amended theorem at the single-firing trace. -/
theorem frame_pacing_amended_witness :
    (runLoop [[Ev.frameDone]]).renders = 1 + (runLoop [[Ev.frameDone]]).firings ∧
    (runLoop [[Ev.frameDone]]).commits = (runLoop [[Ev.frameDone]]).firings ∧
    (runLoop [[Ev.frameDone]]).maxOut ≤ 1 ∧
    (runLoop [[Ev.frameDone]]).commitsWithoutRender = 0 := by
  have h := frame_pacing_amended [[Ev.frameDone]]
  have h3 := h.2.2 (by decide)
  exact ⟨h.1, h3.1, h3.2.1, h3.2.2⟩

/-- C5: input-update semantics.  A pointer-motion event sets the
rectangle's position absolutely; key releases 103/108/105/106 move `y`/`y`/
`x`/`x` by five (shown here away from the wrap-around cases, which C6's
theorem covers); key presses and all other key codes are no-ops; and no
input event ever changes `w` or `h`. -/
theorem input_update_semantics (r : Rect) (hx5 : 5 ≤ r.x) (hy5 : 5 ≤ r.y)
    (hxb : r.x + 5 < U32MOD) (hyb : r.y + 5 < U32MOD) :
    (∀ px py, pointerMotion px py r = ⟨px, py, r.w, r.h⟩) ∧
    keyboardKey .released 103 r = ⟨r.x, r.y - 5, r.w, r.h⟩ ∧
    keyboardKey .released 108 r = ⟨r.x, r.y + 5, r.w, r.h⟩ ∧
    keyboardKey .released 105 r = ⟨r.x - 5, r.y, r.w, r.h⟩ ∧
    keyboardKey .released 106 r = ⟨r.x + 5, r.y, r.w, r.h⟩ ∧
    (∀ key, keyboardKey .pressed key r = r) ∧
    (∀ key, key ≠ 103 → key ≠ 105 → key ≠ 106 → key ≠ 108 →
      keyboardKey .released key r = r) ∧
    (∀ st key, (keyboardKey st key r).w = r.w ∧ (keyboardKey st key r).h = r.h) ∧
    (∀ px py, (pointerMotion px py r).w = r.w ∧ (pointerMotion px py r).h = r.h) := by
  have hU : U32MOD = 4294967296 := by norm_num [U32MOD]
  rw [hU] at hxb hyb
  have hsuby : wsub r.y 5 = r.y - 5 := by simp only [wsub, hU]; omega
  have hsubx : wsub r.x 5 = r.x - 5 := by simp only [wsub, hU]; omega
  have haddy : wadd r.y 5 = r.y + 5 := by simp only [wadd, hU]; omega
  have haddx : wadd r.x 5 = r.x + 5 := by simp only [wadd, hU]; omega
  refine ⟨fun px py => rfl, ?_, ?_, ?_, ?_, fun key => rfl, ?_, ?_,
    fun px py => ⟨rfl, rfl⟩⟩
  · simp [keyboardKey, hsuby]
  · simp [keyboardKey, haddy]
  · simp [keyboardKey, hsubx]
  · simp [keyboardKey, haddx]
  · intro key h103 h105 h106 h108
    simp [keyboardKey, h103, h105, h106, h108]
  · intro st key
    cases st
    · exact ⟨rfl, rfl⟩
    · simp only [keyboardKey]
      split_ifs <;> exact ⟨rfl, rfl⟩

/-- Witness for C5 at the spec's own example values. -/
theorem input_update_semantics_witness :
    pointerMotion 200 150 ⟨10, 10, 50, 50⟩ = ⟨200, 150, 50, 50⟩ ∧
    keyboardKey .released 106 ⟨10, 10, 50, 50⟩ = ⟨15, 10, 50, 50⟩ ∧
    keyboardKey .released 105 ⟨10, 10, 50, 50⟩ = ⟨5, 10, 50, 50⟩ := by
  have h := input_update_semantics ⟨10, 10, 50, 50⟩ (by decide) (by decide)
    (by decide) (by decide)
  exact ⟨h.1 200 150, h.2.2.2.2.1, h.2.2.2.1⟩

/-- C6: subtracting the 5-pixel step below 5 wraps the unsigned coordinate
modulo `2^32` rather than clamping: a release of key 105 with `x = 2`
yields `x = 2^32 - 3 = u32::MAX - 2`, and a release of key 103 with
`y < 5` yields `y + 2^32 - 5`, i.e. `(y - 5) mod 2^32`.  (This is the
wrap-around of a release build, the behaviour the repository documents.) -/
theorem underflow_wraps (r : Rect) (hx2 : r.x = 2) (hy5 : r.y < 5) :
    (keyboardKey .released 105 r).x = 2 ^ 32 - 3 ∧
    (keyboardKey .released 105 r).x = (2 ^ 32 - 1) - 2 ∧
    (keyboardKey .released 103 r).y = r.y + 2 ^ 32 - 5 := by
  have hU : U32MOD = 4294967296 := by norm_num [U32MOD]
  have hpow : (2 : Nat) ^ 32 = 4294967296 := by norm_num
  have h105 : (keyboardKey .released 105 r).x = wsub r.x 5 := by
    simp [keyboardKey]
  have h103 : (keyboardKey .released 103 r).y = wsub r.y 5 := by
    simp [keyboardKey]
  refine ⟨?_, ?_, ?_⟩
  · rw [h105, hx2]; decide
  · rw [h105, hx2]; decide
  · rw [h103]
    simp only [wsub, hU, hpow]
    omega

/-- Witness for C6 at `rect = {x:2, y:0, w:50, h:50}`. -/
theorem underflow_wraps_witness :
    (keyboardKey .released 105 ⟨2, 0, 50, 50⟩).x = 2 ^ 32 - 3 ∧
    (keyboardKey .released 103 ⟨2, 0, 50, 50⟩).y = 0 + 2 ^ 32 - 5 := by
  have h := underflow_wraps ⟨2, 0, 50, 50⟩ rfl (by decide)
  exact ⟨h.1, h.2.2⟩

/-- C7: rendering is deterministic in the scene snapshot: two render passes
over equal `Rect` values produce byte-identical pixel buffers.  The
embedded `draw` is a pure function of the snapshot — the random-noise
generator in the source is commented out and `bg_color` is the constant 0 —
so the buffer depends on nothing but the four `Rect` fields. -/
theorem render_deterministic (r1 r2 : Rect) (hx : r1.x = r2.x) (hy : r1.y = r2.y)
    (hw : r1.w = r2.w) (hh : r1.h = r2.h) :
    drawBytes r1 = drawBytes r2 := by
  cases r1
  cases r2
  simp_all

/-- Witness for C7 at the startup rectangle. -/
theorem render_deterministic_witness :
    drawBytes startupRect = drawBytes ⟨0, 0, 50, 50⟩ :=
  render_deterministic startupRect ⟨0, 0, 50, 50⟩ rfl rfl rfl rfl

/-- C8, counterexample: the claim says every I/O failure on the
render/commit path terminates the process.  But the source discards the
result of `tmp.write_all(pixels.as_slice())` (main.rs 188), so a cycle in
which exactly the pixel-byte write fails runs to completion — that failure
is silently ignored. -/
theorem write_failure_ignored :
    (IoFailures.mk false true false false false false false).writeAllFails = true ∧
    renderCommitCycle ⟨false, true, false, false, false, false, false⟩ =
      Except.ok () := by
  exact ⟨rfl, rfl⟩

/-- C8, amended: every fallible operation on the render/commit path other
than the pixel-byte write — seek, the tempfile flush, damaging the surface,
flushing the display, requesting the frame callback, dispatching — is
unwrapped, so its failure terminates the process with a diagnostic; the
`write_all` of the pixel bytes is the one exception, its result being
discarded.  Hence a cycle completes iff none of the unwrapped operations
fails, independently of the write failing. -/
theorem io_error_policy_amended (f : IoFailures) :
    cycleCompletes f = true ↔
      f.seekFails = false ∧ f.flushFails = false ∧ f.damageFails = false ∧
        f.displayFlushFails = false ∧ f.frameFails = false ∧
        f.dispatchFails = false := by
  obtain ⟨a, b, c, d, e, g, k⟩ := f
  cases a <;> cases b <;> cases c <;> cases d <;> cases e <;> cases g <;>
    cases k <;> decide

/-- C9: under any interleaving of the writer's lock-protected two-field
scene updates with the reader's lock-protected snapshots, every recorded
snapshot is an untorn pair — the initial position or the position installed
by one complete write — because the `RwLock` keeps the reader out of the
window between the writer's two field stores. -/
theorem no_torn_read (r0 : Rect) (ws : List Rect) (n : Nat) (c : SceneConfig)
    (h : Relation.ReflTransGen SceneStep (initScene r0 ws n) c) :
    ∀ p ∈ c.reads, goodPair r0 ws p :=
  (sceneInv_reachable h).2.2.2.2.2

/-- Witness for C9: a concrete four-step execution in which the reader
takes one full snapshot of the startup scene. -/
theorem no_torn_read_witness : goodPair startupRect [] (0, 0) := by
  have hchain : Relation.ReflTransGen SceneStep (initScene startupRect [] 1)
      ⟨.free, startupRect, .idle [], .idle 0, [(0, 0)]⟩ := by
    have s1 := SceneStep.rAcquire startupRect (.idle []) 0 []
    have s2 := SceneStep.rGetX startupRect (.idle []) 0 []
    have s3 := SceneStep.rGetY startupRect (.idle []) startupRect.x 0 []
    have s4 := SceneStep.rRelease startupRect (.idle []) 0
      [(startupRect.x, startupRect.y)]
    exact .head s1 (.head s2 (.head s3 (.head s4 .refl)))
  exact no_torn_read startupRect [] 1 _ hchain (0, 0) (by simp)

/-- C10: when the rectangle's `x` has wrapped past `2^32 - w` (reachable by
the left-key underflow, `w = h = 50` throughout a run), the membership
test's upper bound `rect.x + rect.w` wraps to a value below `rect.w` while
the strict lower bound `x > rect.x` fails for every buffer x-coordinate, so
a render pass colors no pixel white — the whole buffer is black and the
rectangle is invisible; symmetrically when `y ≥ 2^32 - h`. -/
theorem wrap_invisible (r : Rect) (hw : r.w = 50) (hh : r.h = 50)
    (hx : r.x < U32MOD) (hy : r.y < U32MOD) :
    (U32MOD - r.w ≤ r.x →
      ((r.x + r.w) % U32MOD < r.w ∧
        (∀ x, x < BUF_X → ¬ r.x < x) ∧
        ∀ i, i < BUF_X * BUF_Y → pixelBytes r i = [0xFF, 0, 0, 0])) ∧
    (U32MOD - r.h ≤ r.y →
      ∀ i, i < BUF_X * BUF_Y → pixelBytes r i = [0xFF, 0, 0, 0]) := by
  have hU : U32MOD = 4294967296 := by norm_num [U32MOD]
  rw [hU] at hx hy ⊢
  constructor
  · intro hwrap
    refine ⟨by omega, ?_, ?_⟩
    · intro x hxx
      simp only [BUF_X] at hxx
      omega
    · intro i hi
      have hmod : i % BUF_X < BUF_X := Nat.mod_lt _ (by norm_num [BUF_X])
      simp only [pixelBytes]
      rw [if_neg]
      intro hc
      rw [is_coords_in_rect_iff, hU] at hc
      simp only [BUF_X] at hmod hc
      omega
  · intro hwrap
    intro i hi
    simp only [BUF_X, BUF_Y] at hi
    have hdiv : i / BUF_Y < 640 := by
      simp only [BUF_Y]
      omega
    simp only [pixelBytes]
    rw [if_neg]
    intro hc
    rw [is_coords_in_rect_iff, hU] at hc
    simp only [BUF_Y] at hdiv hc
    omega

/-- Witness for C10 at `rect = {x: 2^32 - 3, y: 0, w: 50, h: 50}`, the state
the left-key underflow produces from `x = 2`. -/
theorem wrap_invisible_witness :
    pixelBytes ⟨2 ^ 32 - 3, 0, 50, 50⟩ 0 = [0xFF, 0, 0, 0] ∧
    ((2 ^ 32 - 3) + 50) % U32MOD < 50 := by
  have h := wrap_invisible ⟨2 ^ 32 - 3, 0, 50, 50⟩ rfl rfl
    (by norm_num [U32MOD]) (by norm_num [U32MOD])
  have h1 := h.1 (by norm_num [U32MOD])
  exact ⟨h1.2.2 0 (by decide), h1.1⟩

end WaylandRect
